import Mathlib

/-!
Verification of the PDF-explainer backend pipeline (backend/src/app.ts):
text extraction with OCR fallback, per-page provenance, summary truncation,
citation extraction from model answers, and the error mapping of the three
HTTP operations.  External collaborators (pdf-parse, tesseract, the LLM
backend, the upload store) are modelled as explicit inputs.
-/

/-- Model of the JavaScript String.prototype.trim on the character list:
strip leading and trailing whitespace. -/
def jsTrimChars (l : List Char) : List Char :=
  (((l.dropWhile Char.isWhitespace).reverse).dropWhile Char.isWhitespace).reverse

/-- Model of the JavaScript String.prototype.trim. -/
def jsTrim (s : String) : String :=
  ⟨jsTrimChars s.data⟩

/-- Model of the JavaScript s.slice(0, n): the first n characters of s
(all of s when it is shorter). -/
def jsSliceTo (s : String) (n : Nat) : String :=
  ⟨s.data.take n⟩

/-- One page as returned by the pdf-parse library (parsed.pages entries,
fields num and text). -/
structure ParsedPage where
  num : Nat
  text : String
deriving DecidableEq, Repr

/-- The result of the pdf-parse digital extraction (parser.getText()):
the full text and the per-page breakdown. -/
structure ParsedPdf where
  text : String
  pages : List ParsedPage
deriving DecidableEq, Repr

/-- One entry of the pages sequence of an extraction result
(fields page and text in app.ts). -/
structure PageText where
  page : Nat
  text : String
deriving DecidableEq, Repr

/-- Which pipeline produced the text: the string literals pdf-parse and ocr
of the method field in app.ts. -/
inductive ExtractionMethod where
  | pdfParse
  | ocr
deriving DecidableEq, Repr

/-- The value returned by extractPdfText in app.ts. -/
structure ExtractionResult where
  text : String
  method : ExtractionMethod
  pages : List PageText
deriving DecidableEq, Repr

/-- MIN_TEXT_LENGTH in app.ts. -/
def MIN_TEXT_LENGTH : Nat := 80

/-- MAX_SUMMARY_CHARS in app.ts. -/
def MAX_SUMMARY_CHARS : Nat := 20000

/-- The digital per-page breakdown built by extractPdfText:
parsed.pages.map(page to (page.num, page.text.trim())).filter(text nonempty). -/
def digitalPages (ps : List ParsedPage) : List PageText :=
  (ps.map (fun p => PageText.mk p.num (jsTrim p.text))).filter
    (fun p => 0 < p.text.length)

/-- Model of extractPdfText in app.ts, for the runs where the two external
calls (parser.getText() and Tesseract.recognize) succeed; parsed is what
pdf-parse returned and ocrText what Tesseract would return on the same bytes. -/
def extractPdfText (parsed : ParsedPdf) (ocrText : String) : ExtractionResult :=
  let extractedText := jsTrim parsed.text
  if MIN_TEXT_LENGTH ≤ extractedText.length then
    ⟨extractedText, ExtractionMethod.pdfParse, digitalPages parsed.pages⟩
  else
    let t := jsTrim ocrText
    ⟨t, ExtractionMethod.ocr, if t = "" then [] else [⟨1, t⟩]⟩

/-- Model of extractPdfText with the fallibility of the two external calls
made explicit: parseResult is the outcome of parser.getText() and ocrResult
the outcome of Tesseract.recognize; a thrown exception is an error value and
the do-notation propagates it exactly as a JS rejection does. -/
def extractPdfTextE {ε : Type} (parseResult : Except ε ParsedPdf)
    (ocrResult : Except ε String) : Except ε ExtractionResult := do
  let parsed ← parseResult
  let extractedText := jsTrim parsed.text
  if MIN_TEXT_LENGTH ≤ extractedText.length then
    pure ⟨extractedText, ExtractionMethod.pdfParse, digitalPages parsed.pages⟩
  else
    let ocrRaw ← ocrResult
    let t := jsTrim ocrRaw
    pure ⟨t, ExtractionMethod.ocr, if t = "" then [] else [⟨1, t⟩]⟩

/-- Parse a run of decimal digit characters as a number, the semantics of the
JavaScript Number conversion on the captured digit group of the citation
regex. -/
def digitsToNat (ds : List Char) : Nat :=
  ds.foldl (fun n c => n * 10 + (c.toNat - 48)) 0

/-- Match the remainder of the citation pattern after its opening bracket: the
literal letter p, the literal dot, a maximal non-empty run of digits, and the
closing bracket; on success return the parsed page number together with the
characters that follow the closing bracket. -/
def matchPNum (l : List Char) : Option (Nat × List Char) :=
  match l with
  | c1 :: c2 :: rest =>
    if c1 = 'p' ∧ c2 = '.' then
      match rest.dropWhile Char.isDigit with
      | b :: tail =>
        if b = ']' ∧ rest.takeWhile Char.isDigit ≠ [] then
          some (digitsToNat (rest.takeWhile Char.isDigit), tail)
        else none
      | [] => none
    else none
  | _ => none

/-- The left-to-right global scan of the citation regex over the answer text,
with an explicit fuel argument for termination; a successful match emits its
page number and the scan resumes behind the match, otherwise the scan advances
one character. -/
def scanAux : Nat → List Char → List Nat
  | _, [] => []
  | 0, _ :: _ => []
  | fuel + 1, c :: rest =>
    if c = '[' then
      match matchPNum rest with
      | some nt => nt.1 :: scanAux fuel nt.2
      | none => scanAux fuel rest
    else scanAux fuel rest

/-- All page numbers produced by answer.matchAll of the citation regex, mapped
through Number, in match order. -/
def scanCitations (l : List Char) : List Nat :=
  scanAux l.length l

/-- The citations array of the ask handler before deduplication. -/
def citationMatches (answer : String) : List Nat :=
  scanCitations answer.data

/-- Model of Array.from(new Set(citations)) in the ask handler: a JavaScript
Set iterates in insertion order, so this keeps the first occurrence of each
value. -/
def dedupFirst (l : List Nat) : List Nat :=
  l.foldl (fun acc n => if n ∈ acc then acc else acc ++ [n]) []

/-- The deduplicated citation list the ask handler returns to the client. -/
def uniqueCitations (answer : String) : List Nat :=
  dedupFirst (citationMatches answer)

/-- The text contains, at some position, a well-formed citation marker whose
digit run parses to n: it splits as some pre, an opening bracket, the letter
p, a dot, a non-empty run of digits, a closing bracket, and some post. -/
def MarkerFor (l : List Char) (n : Nat) : Prop :=
  ∃ pre digits post,
    l = pre ++ '[' :: 'p' :: '.' :: (digits ++ ']' :: post) ∧
    digits ≠ [] ∧ (∀ c ∈ digits, c.isDigit = true) ∧ digitsToNat digits = n

/-- Decidable check that the text contains a well-formed citation marker. -/
def containsMarker : List Char → Bool
  | [] => false
  | c :: rest =>
    if c = '[' then (matchPNum rest).isSome || containsMarker rest
    else containsMarker rest

/-- Specification-side deduplication: keep each value exactly once, in order
of its first appearance, skipping values already seen. -/
def keepFirsts (seen : List Nat) : List Nat → List Nat
  | [] => []
  | x :: xs =>
    if x ∈ seen then keepFirsts seen xs else x :: keepFirsts (x :: seen) xs

/-- The outcome classes of the error-handling middleware in app.ts that the
claims concern: a missing file id maps to the 404 not-found response, a
missing OPENAI_API_KEY maps to the 503 service-unavailable response, and any
other thrown error maps to the generic 500 response with its message. -/
inductive AppError where
  | notFound
  | backendUnavailable
  | internal (msg : String)
deriving DecidableEq, Repr

/-- One stored upload: what the two extraction collaborators would return
for its bytes. -/
structure FileRecord where
  parsed : ParsedPdf
  ocrText : String
deriving DecidableEq, Repr

/-- The ambient configuration and collaborators of the handlers: the uploads
directory as an association list from file id to stored file, the lowercased
AI_PROVIDER value, the optional OPENAI_API_KEY, and the language-model
backend modelled as a deterministic map from the user-message payload to the
reply content. -/
structure Env where
  files : List (String × FileRecord)
  aiProvider : String
  apiKey : Option String
  backendReply : String → String

/-- Model of the fs.existsSync check and read of an uploaded file by id. -/
def lookupFile (env : Env) (id : String) : Option FileRecord :=
  (env.files.find? (fun kv => kv.1 == id)).map (fun kv => kv.2)

/-- The prompt text the summarize handler builds:
result.text.slice(0, MAX_SUMMARY_CHARS). -/
def promptTextFor (fullText : String) : String :=
  jsSliceTo fullText MAX_SUMMARY_CHARS

/-- The fixed user-message content of generateSummary in app.ts: the bullet
instruction followed by the truncated document text. -/
def summaryUserMessage (promptText : String) : String :=
  "Summarize the document in 5-8 bullet points. Focus on key facts, decisions, and action items.\n\n"
    ++ promptText

/-- The fixed user-message content of answerQuestion in app.ts. -/
def askUserMessage (question context : String) : String :=
  "Question: " ++ question ++ "\n\nDocument:\n" ++ context

/-- Model of generateSummary: with the ollama provider no credential is
needed; with the openai provider a missing OPENAI_API_KEY throws before any
backend call and the middleware maps that to the service-unavailable
response; otherwise one backend call is made and its trimmed content
returned.  The second component counts backend invocations. -/
def generateSummaryE (env : Env) (promptText : String) :
    Except AppError String × Nat :=
  if env.aiProvider = "ollama" then
    (Except.ok (jsTrim (env.backendReply (summaryUserMessage promptText))), 1)
  else
    match env.apiKey with
    | none => (Except.error AppError.backendUnavailable, 0)
    | some _ =>
      (Except.ok (jsTrim (env.backendReply (summaryUserMessage promptText))), 1)

/-- Model of answerQuestion, with the same provider and credential handling
as generateSummaryE. -/
def answerQuestionE (env : Env) (question context : String) :
    Except AppError String × Nat :=
  if env.aiProvider = "ollama" then
    (Except.ok (jsTrim (env.backendReply (askUserMessage question context))), 1)
  else
    match env.apiKey with
    | none => (Except.error AppError.backendUnavailable, 0)
    | some _ =>
      (Except.ok (jsTrim (env.backendReply (askUserMessage question context))), 1)

/-- The body of the POST /extract response. -/
structure ExtractResponse where
  text : String
  method : ExtractionMethod
deriving DecidableEq, Repr

/-- The body of the POST /summarize response. -/
structure SummarizeResponse where
  summary : String
  method : ExtractionMethod
deriving DecidableEq, Repr

/-- The body of the POST /ask response. -/
structure AskResponse where
  answer : String
  citations : List Nat
  method : ExtractionMethod
deriving DecidableEq, Repr

/-- Model of the POST /extract handler after request validation: an unknown
file id maps to the not-found error, otherwise the extraction pipeline runs
and its text and method are returned.  No backend is involved. -/
def extractOp (env : Env) (id : String) : Except AppError ExtractResponse :=
  match lookupFile env id with
  | none => Except.error AppError.notFound
  | some f =>
    let r := extractPdfText f.parsed f.ocrText
    Except.ok ⟨r.text, r.method⟩

/-- Model of the POST /summarize handler after request validation, paired
with the number of backend invocations. -/
def summarizeOp (env : Env) (id : String) :
    Except AppError SummarizeResponse × Nat :=
  match lookupFile env id with
  | none => (Except.error AppError.notFound, 0)
  | some f =>
    let r := extractPdfText f.parsed f.ocrText
    match generateSummaryE env (promptTextFor r.text) with
    | (Except.error e, k) => (Except.error e, k)
    | (Except.ok summary, k) => (Except.ok ⟨summary, r.method⟩, k)

/-- Model of the POST /ask handler after request validation, paired with the
number of backend invocations: each page text is cut to 2000 characters, the
pages are rendered as Page blocks joined by blank lines, the backend answers,
and the citations are extracted from the raw answer. -/
def askOp (env : Env) (id question : String) :
    Except AppError AskResponse × Nat :=
  match lookupFile env id with
  | none => (Except.error AppError.notFound, 0)
  | some f =>
    let r := extractPdfText f.parsed f.ocrText
    let pages := r.pages.map (fun p => PageText.mk p.page (jsSliceTo p.text 2000))
    let context := String.intercalate "\n\n"
      (pages.map (fun p => "Page " ++ toString p.page ++ ":\n" ++ p.text))
    match answerQuestionE env question context with
    | (Except.error e, k) => (Except.error e, k)
    | (Except.ok answer, k) =>
      (Except.ok ⟨answer, uniqueCitations answer, r.method⟩, k)

/-- A concrete stored file for evaluating the pipelines. -/
def fileRec1 : FileRecord := ⟨⟨"doc text", []⟩, "ocr text"⟩

/-- A concrete environment with the openai provider and a configured key. -/
def envWithKey : Env := ⟨[("f1", fileRec1)], "openai", some "key", fun _ => " summary "⟩

/-- A concrete environment with the openai provider and no key configured. -/
def envNoKey : Env := ⟨[("f1", fileRec1)], "openai", none, fun _ => ""⟩

theorem extractPdfTextE_ok (parsed : ParsedPdf) (ocrText : String) :
    extractPdfTextE (ε := String) (Except.ok parsed) (Except.ok ocrText) =
      Except.ok (extractPdfText parsed ocrText) := by
  simp only [extractPdfTextE, extractPdfText, bind, Except.bind]
  split <;> rfl

theorem dropWhile_head_false {α : Type} {p : α → Bool} :
    ∀ (l : List α) (a : α) (t : List α), l.dropWhile p = a :: t → p a = false := by
  intro l
  induction l with
  | nil => intro a t h; simp [List.dropWhile] at h
  | cons x xs ih =>
    intro a t h
    rw [List.dropWhile_cons] at h
    by_cases hx : p x
    · simp [hx] at h
      exact ih a t h
    · simp [hx] at h
      simp at hx
      rw [← h.1]
      exact hx

theorem dropWhile_idem {α : Type} (p : α → Bool) (l : List α) :
    (l.dropWhile p).dropWhile p = l.dropWhile p := by
  cases h : l.dropWhile p with
  | nil => rfl
  | cons a t =>
    have ha := dropWhile_head_false l a t h
    simp [List.dropWhile_cons, ha]

theorem dropWhile_fix_append_left {α : Type} {p : α → Bool} {l s : List α}
    (h : (l ++ s).dropWhile p = l ++ s) : l.dropWhile p = l := by
  cases l with
  | nil => rfl
  | cons x xs =>
    have hx : p x = false :=
      dropWhile_head_false (x :: (xs ++ s)) x (xs ++ s) (by simpa using h)
    simp [List.dropWhile_cons, hx]

theorem trimmed_dropWhile_fix {α : Type} (p : α → Bool) (l : List α) :
    ((((l.dropWhile p).reverse).dropWhile p).reverse).dropWhile p =
      (((l.dropWhile p).reverse).dropWhile p).reverse := by
  obtain ⟨pre, hpre⟩ := List.dropWhile_suffix (l := (l.dropWhile p).reverse) p
  have hX : l.dropWhile p =
      (((l.dropWhile p).reverse).dropWhile p).reverse ++ pre.reverse := by
    have hrev := congrArg List.reverse hpre
    simpa [List.reverse_append] using hrev.symm
  have hfix := dropWhile_idem p l
  rw [hX] at hfix
  exact dropWhile_fix_append_left hfix

theorem jsTrimChars_idem (l : List Char) :
    jsTrimChars (jsTrimChars l) = jsTrimChars l := by
  have h1 : (jsTrimChars l).dropWhile Char.isWhitespace = jsTrimChars l :=
    trimmed_dropWhile_fix Char.isWhitespace l
  have h2 : (jsTrimChars l).reverse =
      ((l.dropWhile Char.isWhitespace).reverse).dropWhile Char.isWhitespace :=
    List.reverse_reverse _
  calc jsTrimChars (jsTrimChars l)
      = ((((jsTrimChars l).dropWhile Char.isWhitespace).reverse).dropWhile
          Char.isWhitespace).reverse := rfl
    _ = (((jsTrimChars l).reverse).dropWhile Char.isWhitespace).reverse := by
          rw [h1]
    _ = (((((l.dropWhile Char.isWhitespace).reverse).dropWhile
          Char.isWhitespace).dropWhile Char.isWhitespace)).reverse := by
          rw [h2]
    _ = (((l.dropWhile Char.isWhitespace).reverse).dropWhile
          Char.isWhitespace).reverse := by
          rw [dropWhile_idem]
    _ = jsTrimChars l := rfl

theorem jsTrim_idem (s : String) : jsTrim (jsTrim s) = jsTrim s :=
  String.ext (jsTrimChars_idem s.data)

theorem string_ne_empty_of_length_pos {s : String} (h : 0 < s.length) : s ≠ "" := by
  intro he
  rw [he] at h
  exact absurd h (by decide)

/-- The digital branch of extractPdfText, reached when the trimmed full text
meets the MIN_TEXT_LENGTH threshold. -/
theorem extractPdfText_digital (parsed : ParsedPdf) (ocrText : String)
    (h : MIN_TEXT_LENGTH ≤ (jsTrim parsed.text).length) :
    extractPdfText parsed ocrText =
      ⟨jsTrim parsed.text, ExtractionMethod.pdfParse, digitalPages parsed.pages⟩ := by
  simp [extractPdfText, h]

/-- The OCR branch of extractPdfText, reached when the trimmed full text is
below the MIN_TEXT_LENGTH threshold. -/
theorem extractPdfText_ocrBranch (parsed : ParsedPdf) (ocrText : String)
    (h : (jsTrim parsed.text).length < MIN_TEXT_LENGTH) :
    extractPdfText parsed ocrText =
      ⟨jsTrim ocrText, ExtractionMethod.ocr,
        if jsTrim ocrText = "" then [] else [⟨1, jsTrim ocrText⟩]⟩ := by
  simp [extractPdfText, Nat.not_le.mpr h]

/-- Claim C1: when the trimmed digital full text has length at least
MIN_TEXT_LENGTH (80) the extractor reports the digital method together with
the digital per-page breakdown, and when the trimmed length is strictly
below 80 it falls back to OCR; length exactly 80 therefore yields the
digital method and length 79 yields OCR. -/
theorem extract_threshold_boundary (parsed : ParsedPdf) (ocrText : String) :
    (MIN_TEXT_LENGTH ≤ (jsTrim parsed.text).length →
      (extractPdfText parsed ocrText).method = ExtractionMethod.pdfParse ∧
      (extractPdfText parsed ocrText).pages = digitalPages parsed.pages) ∧
    ((jsTrim parsed.text).length < MIN_TEXT_LENGTH →
      (extractPdfText parsed ocrText).method = ExtractionMethod.ocr) := by
  constructor
  · intro h
    rw [extractPdfText_digital parsed ocrText h]
    exact ⟨rfl, rfl⟩
  · intro h
    rw [extractPdfText_ocrBranch parsed ocrText h]

theorem extract_threshold_boundary_witness :
    (extractPdfText ⟨⟨List.replicate 80 'a'⟩, []⟩ "").method =
      ExtractionMethod.pdfParse ∧
    (extractPdfText ⟨⟨List.replicate 79 'a'⟩, []⟩ "").method =
      ExtractionMethod.ocr :=
  ⟨((extract_threshold_boundary ⟨⟨List.replicate 80 'a'⟩, []⟩ "").1 (by decide)).1,
   (extract_threshold_boundary ⟨⟨List.replicate 79 'a'⟩, []⟩ "").2 (by decide)⟩

/-- Claim C2: on the OCR fallback path the method is OCR, a non-empty trimmed
OCR blob becomes exactly one page entry numbered 1 holding that blob, and an
empty trimmed OCR blob yields an empty page sequence. -/
theorem ocr_fallback_pages (parsed : ParsedPdf) (ocrText : String)
    (h : (jsTrim parsed.text).length < MIN_TEXT_LENGTH) :
    (extractPdfText parsed ocrText).method = ExtractionMethod.ocr ∧
    (jsTrim ocrText ≠ "" →
      (extractPdfText parsed ocrText).pages = [⟨1, jsTrim ocrText⟩]) ∧
    (jsTrim ocrText = "" → (extractPdfText parsed ocrText).pages = []) ∧
    (extractPdfText parsed ocrText).text = jsTrim ocrText := by
  rw [extractPdfText_ocrBranch parsed ocrText h]
  refine ⟨rfl, ?_, ?_, rfl⟩
  · intro hne
    simp [hne]
  · intro he
    simp [he]

theorem ocr_fallback_pages_witness :
    (extractPdfText ⟨"short", []⟩ " scanned page ").method = ExtractionMethod.ocr ∧
    (extractPdfText ⟨"short", []⟩ " scanned page ").pages =
      [⟨1, "scanned page"⟩] ∧
    (extractPdfText ⟨"short", []⟩ "   ").pages = [] :=
  ⟨(ocr_fallback_pages ⟨"short", []⟩ " scanned page " (by decide)).1,
   (((ocr_fallback_pages ⟨"short", []⟩ " scanned page " (by decide)).2.1
      (by decide)).trans (by decide)),
   (ocr_fallback_pages ⟨"short", []⟩ "   " (by decide)).2.2.1 (by decide)⟩

/-- Claim C5: a failure of the digital-parse step propagates unchanged and the
OCR step is never consulted (the result is the same for every OCR outcome when
the parse outcome is fixed and meets the threshold, and is the parse error when
the parse failed); the OCR step is reached only on a threshold miss, and an OCR
failure then propagates as well. -/
theorem extract_error_propagation :
    (∀ (ε : Type) (e : ε) (ocrResult : Except ε String),
      extractPdfTextE (Except.error e) ocrResult = Except.error e) ∧
    (∀ (ε : Type) (parsed : ParsedPdf) (o₁ o₂ : Except ε String),
      MIN_TEXT_LENGTH ≤ (jsTrim parsed.text).length →
      extractPdfTextE (Except.ok parsed) o₁ = extractPdfTextE (Except.ok parsed) o₂) ∧
    (∀ (ε : Type) (parsed : ParsedPdf) (e : ε),
      (jsTrim parsed.text).length < MIN_TEXT_LENGTH →
      extractPdfTextE (Except.ok parsed) (Except.error e) = Except.error e) := by
  refine ⟨fun ε e ocrResult => rfl, ?_, ?_⟩
  · intro ε parsed o₁ o₂ h
    simp [extractPdfTextE, bind, Except.bind, h]
  · intro ε parsed e h
    simp [extractPdfTextE, bind, Except.bind, Nat.not_le.mpr h]

theorem extract_error_propagation_witness :
    extractPdfTextE (ε := String) (Except.ok ⟨⟨List.replicate 80 'a'⟩, []⟩)
        (Except.ok "ocr text") =
      extractPdfTextE (ε := String) (Except.ok ⟨⟨List.replicate 80 'a'⟩, []⟩)
        (Except.error "ocr crashed") ∧
    extractPdfTextE (ε := String) (Except.ok ⟨"short", []⟩)
        (Except.error "ocr crashed") = Except.error "ocr crashed" :=
  ⟨extract_error_propagation.2.1 String ⟨⟨List.replicate 80 'a'⟩, []⟩
      (Except.ok "ocr text") (Except.error "ocr crashed") (by decide),
   extract_error_propagation.2.2 String ⟨"short", []⟩ "ocr crashed" (by decide)⟩

/-- Claim C6: assuming the digital parser reports its pages with strictly
increasing page numbers (as the pdf-parse collaborator does), every page kept
by the extractor has non-empty trimmed text, and the page numbers of the
result are non-decreasing in sequence order and contain no duplicates. -/
theorem pages_invariant (parsed : ParsedPdf) (ocrText : String)
    (hmono : (parsed.pages.map ParsedPage.num).Pairwise (· < ·)) :
    (∀ p ∈ (extractPdfText parsed ocrText).pages, jsTrim p.text ≠ "") ∧
    ((extractPdfText parsed ocrText).pages.map PageText.page).Pairwise (· ≤ ·) ∧
    ((extractPdfText parsed ocrText).pages.map PageText.page).Nodup := by
  by_cases hlen : MIN_TEXT_LENGTH ≤ (jsTrim parsed.text).length
  · rw [extractPdfText_digital parsed ocrText hlen]
    have hsub : ((digitalPages parsed.pages).map PageText.page).Sublist
        (parsed.pages.map ParsedPage.num) := by
      have h1 := (List.filter_sublist
        (parsed.pages.map (fun p => PageText.mk p.num (jsTrim p.text)))
        (p := fun p => 0 < p.text.length)).map PageText.page
      simpa [digitalPages, List.map_map, Function.comp] using h1
    have hpw : ((digitalPages parsed.pages).map PageText.page).Pairwise (· < ·) :=
      hmono.sublist hsub
    refine ⟨?_, hpw.imp le_of_lt, hpw.imp ne_of_lt⟩
    intro p hp
    obtain ⟨hmem, hpos⟩ := List.mem_filter.mp hp
    obtain ⟨q, _, rfl⟩ := List.mem_map.mp hmem
    have hpos' : 0 < (jsTrim q.text).length := by simpa using hpos
    rw [jsTrim_idem q.text]
    exact string_ne_empty_of_length_pos hpos'
  · rw [extractPdfText_ocrBranch parsed ocrText (Nat.not_le.mp hlen)]
    by_cases ht : jsTrim ocrText = ""
    · simp [ht]
    · simp only [ht, if_false]
      refine ⟨?_, by simp, by simp⟩
      intro p hp
      simp only [List.mem_singleton] at hp
      rw [hp]
      simpa [jsTrim_idem ocrText] using ht

theorem pages_invariant_witness :
    ((extractPdfText ⟨⟨List.replicate 80 'a'⟩,
        [⟨1, " intro "⟩, ⟨2, "   "⟩, ⟨3, "body"⟩]⟩ "").pages.map
      PageText.page).Pairwise (· ≤ ·) ∧
    ((extractPdfText ⟨⟨List.replicate 80 'a'⟩,
        [⟨1, " intro "⟩, ⟨2, "   "⟩, ⟨3, "body"⟩]⟩ "").pages.map
      PageText.page).Nodup :=
  ⟨(pages_invariant ⟨⟨List.replicate 80 'a'⟩,
      [⟨1, " intro "⟩, ⟨2, "   "⟩, ⟨3, "body"⟩]⟩ "" (by decide)).2.1,
   (pages_invariant ⟨⟨List.replicate 80 'a'⟩,
      [⟨1, " intro "⟩, ⟨2, "   "⟩, ⟨3, "body"⟩]⟩ "" (by decide)).2.2⟩

theorem takeWhile_append_of_all {α : Type} {p : α → Bool} {d : List α}
    (hall : ∀ c ∈ d, p c = true) {b : α} (hb : p b = false) (post : List α) :
    (d ++ b :: post).takeWhile p = d ∧ (d ++ b :: post).dropWhile p = b :: post := by
  induction d with
  | nil => simp [List.takeWhile_cons, List.dropWhile_cons, hb]
  | cons x xs ih =>
    have hx : p x = true := hall x (by simp)
    have ih2 := ih (fun c hc => hall c (by simp [hc]))
    simp [List.takeWhile_cons, List.dropWhile_cons, hx, ih2.1, ih2.2]

theorem matchPNum_build {digits : List Char} (hne : digits ≠ [])
    (hdig : ∀ c ∈ digits, c.isDigit = true) (post : List Char) :
    matchPNum ('p' :: '.' :: (digits ++ ']' :: post)) =
      some (digitsToNat digits, post) := by
  have hb : (']' : Char).isDigit = false := by decide
  have h := takeWhile_append_of_all hdig hb post
  simp [matchPNum, h.1, h.2, hne]

theorem matchPNum_sound {l : List Char} {n : Nat} {tail : List Char}
    (h : matchPNum l = some (n, tail)) :
    ∃ digits, l = 'p' :: '.' :: (digits ++ ']' :: tail) ∧ digits ≠ [] ∧
      (∀ c ∈ digits, c.isDigit = true) ∧ digitsToNat digits = n := by
  cases l with
  | nil => simp [matchPNum] at h
  | cons c1 l1 =>
    cases l1 with
    | nil => simp [matchPNum] at h
    | cons c2 rest =>
      simp only [matchPNum] at h
      by_cases hpc : c1 = 'p' ∧ c2 = '.'
      · rw [if_pos hpc] at h
        cases hdrop : rest.dropWhile Char.isDigit with
        | nil => rw [hdrop] at h; exact absurd h (by simp)
        | cons b tail2 =>
          rw [hdrop] at h
          dsimp only at h
          by_cases hbt : b = ']' ∧ rest.takeWhile Char.isDigit ≠ []
          · rw [if_pos hbt] at h
            simp only [Option.some.injEq, Prod.mk.injEq] at h
            refine ⟨rest.takeWhile Char.isDigit, ?_, hbt.2, ?_, h.1⟩
            · rw [hpc.1, hpc.2]
              have hsplit := List.takeWhile_append_dropWhile Char.isDigit rest
              rw [hdrop, hbt.1, h.2] at hsplit
              rw [hsplit]
            · exact fun c hc => List.mem_takeWhile_imp hc
          · rw [if_neg hbt] at h; exact absurd h (by simp)
      · rw [if_neg hpc] at h; exact absurd h (by simp)

theorem dropWhile_append_barrier {α : Type} {p : α → Bool} {bar c : α}
    {ys tail : List α} (hbar : p bar = false) (hc : c ≠ bar) :
    ∀ xs, (xs ++ bar :: ys).dropWhile p = c :: tail →
      ∃ t2, tail = t2 ++ bar :: ys := by
  intro xs
  induction xs with
  | nil =>
    intro h
    rw [List.nil_append, List.dropWhile_cons, if_neg (by simp [hbar])] at h
    injection h with h1 h2
    exact absurd h1.symm hc
  | cons x xs2 ih =>
    intro h
    rw [List.cons_append, List.dropWhile_cons] at h
    by_cases hx : p x
    · rw [if_pos (by simp [hx])] at h
      exact ih h
    · rw [if_neg (by simp [hx])] at h
      injection h with h1 h2
      exact ⟨xs2, h2.symm⟩

theorem matchPNum_barrier {xs ys tail : List Char} {n : Nat}
    (h : matchPNum (xs ++ '[' :: ys) = some (n, tail)) :
    ∃ t2, tail = t2 ++ '[' :: ys := by
  obtain ⟨digits, heq, hne, hdig, hval⟩ := matchPNum_sound h
  cases xs with
  | nil =>
    exfalso
    rw [List.nil_append] at heq
    injection heq with h1 _
    exact absurd h1 (by decide)
  | cons x1 xs1 =>
    cases xs1 with
    | nil =>
      exfalso
      rw [List.cons_append, List.nil_append] at heq
      injection heq with _ h2
      injection h2 with h3 _
      exact absurd h3 (by decide)
    | cons x2 xs2 =>
      rw [List.cons_append, List.cons_append] at heq
      injection heq with _ h2
      injection h2 with _ h3
      -- h3 : xs2 ++ '[' :: ys = digits ++ ']' :: tail
      have hdrop : (xs2 ++ '[' :: ys).dropWhile Char.isDigit = ']' :: tail := by
        have hb : (']' : Char).isDigit = false := by decide
        rw [h3]
        exact (takeWhile_append_of_all hdig hb tail).2
      exact dropWhile_append_barrier (by decide) (by decide) xs2 hdrop

theorem scanAux_sound :
    ∀ (fuel : Nat) (l : List Char), l.length ≤ fuel →
      ∀ n ∈ scanAux fuel l, MarkerFor l n := by
  intro fuel
  induction fuel with
  | zero =>
    intro l hl n hn
    have hnil : l = [] := List.eq_nil_of_length_eq_zero (Nat.le_zero.mp hl)
    rw [hnil] at hn
    simp [scanAux] at hn
  | succ fuel ih =>
    intro l hl n hn
    cases l with
    | nil => simp [scanAux] at hn
    | cons c rest =>
      have hrl : rest.length ≤ fuel := by
        simp only [List.length_cons] at hl
        omega
      simp only [scanAux] at hn
      by_cases hc : c = '['
      · rw [if_pos hc] at hn
        cases hm : matchPNum rest with
        | none =>
          rw [hm] at hn
          dsimp only at hn
          obtain ⟨pre, digits, post, heq, h1, h2, h3⟩ := ih rest hrl n hn
          exact ⟨c :: pre, digits, post, by rw [List.cons_append, heq], h1, h2, h3⟩
        | some nt =>
          rw [hm] at hn
          obtain ⟨n0, tail0⟩ := nt
          dsimp only at hn
          obtain ⟨digits0, hrest, hne0, hdig0, hval0⟩ := matchPNum_sound hm
          rcases List.mem_cons.mp hn with hhead | htail
          · refine ⟨[], digits0, tail0, ?_, hne0, hdig0, ?_⟩
            · rw [List.nil_append, hc, hrest]
            · rw [hhead]
              exact hval0
          · have hlen0 : tail0.length ≤ fuel := by
              have hlr := congrArg List.length hrest
              simp [List.length_append] at hlr
              omega
            obtain ⟨pre, digits, post, heq, h1, h2, h3⟩ := ih tail0 hlen0 n htail
            refine ⟨c :: 'p' :: '.' :: (digits0 ++ ']' :: pre), digits, post, ?_, h1, h2, h3⟩
            rw [hc, hrest, heq]
            simp [List.cons_append, List.append_assoc]
      · rw [if_neg hc] at hn
        obtain ⟨pre, digits, post, heq, h1, h2, h3⟩ := ih rest hrl n hn
        exact ⟨c :: pre, digits, post, by rw [List.cons_append, heq], h1, h2, h3⟩

theorem scanAux_complete :
    ∀ (fuel : Nat) (pre digits post : List Char),
      (pre ++ '[' :: 'p' :: '.' :: (digits ++ ']' :: post)).length ≤ fuel →
      digits ≠ [] → (∀ c ∈ digits, c.isDigit = true) →
      digitsToNat digits ∈
        scanAux fuel (pre ++ '[' :: 'p' :: '.' :: (digits ++ ']' :: post)) := by
  intro fuel
  induction fuel with
  | zero =>
    intro pre digits post hl _ _
    exfalso
    simp [List.length_append, List.length_cons] at hl
  | succ fuel ih =>
    intro pre digits post hl hne hdig
    cases pre with
    | nil =>
      rw [List.nil_append]
      simp only [scanAux]
      rw [matchPNum_build hne hdig post]
      simp
    | cons c pre2 =>
      have hl2 : (pre2 ++ '[' :: 'p' :: '.' :: (digits ++ ']' :: post)).length ≤ fuel := by
        simp only [List.cons_append, List.length_cons] at hl
        omega
      rw [List.cons_append]
      simp only [scanAux]
      by_cases hc : c = '['
      · rw [if_pos hc]
        cases hm : matchPNum (pre2 ++ '[' :: 'p' :: '.' :: (digits ++ ']' :: post)) with
        | none =>
          dsimp only
          exact ih pre2 digits post hl2 hne hdig
        | some nt =>
          obtain ⟨n0, tail0⟩ := nt
          dsimp only
          obtain ⟨t2, ht2⟩ := matchPNum_barrier hm
          have hlen0 : (t2 ++ '[' :: 'p' :: '.' :: (digits ++ ']' :: post)).length ≤ fuel := by
            obtain ⟨digits1, hr1, -, -, -⟩ := matchPNum_sound hm
            have e1 := congrArg List.length hr1
            have e2 := congrArg List.length ht2
            simp [List.length_append, List.length_cons] at e1 e2 hl ⊢
            omega
          have hmem := ih t2 digits post hlen0 hne hdig
          rw [← ht2] at hmem
          exact List.mem_cons_of_mem n0 hmem
      · rw [if_neg hc]
        exact ih pre2 digits post hl2 hne hdig

theorem containsMarker_append_marker {digits : List Char} (hne : digits ≠ [])
    (hdig : ∀ c ∈ digits, c.isDigit = true) (post : List Char) :
    ∀ pre, containsMarker (pre ++ '[' :: 'p' :: '.' :: (digits ++ ']' :: post)) = true := by
  intro pre
  induction pre with
  | nil =>
    rw [List.nil_append]
    simp only [containsMarker]
    rw [matchPNum_build hne hdig post]
    simp
  | cons c pre2 ih =>
    rw [List.cons_append]
    simp only [containsMarker]
    by_cases hc : c = '['
    · rw [if_pos hc, ih]
      simp
    · rw [if_neg hc]
      exact ih

theorem containsMarker_iff (l : List Char) :
    containsMarker l = true ↔ ∃ n, MarkerFor l n := by
  constructor
  · induction l with
    | nil => intro h; simp [containsMarker] at h
    | cons c rest ih =>
      intro h
      simp only [containsMarker] at h
      by_cases hc : c = '['
      · rw [if_pos hc] at h
        cases hm : matchPNum rest with
        | some nt =>
          obtain ⟨n0, tail0⟩ := nt
          obtain ⟨digits0, hrest, hne0, hdig0, hval0⟩ := matchPNum_sound hm
          exact ⟨n0, [], digits0, tail0,
            by rw [List.nil_append, hc, hrest], hne0, hdig0, hval0⟩
        | none =>
          rw [hm] at h
          simp only [Option.isSome_none, Bool.false_or] at h
          obtain ⟨n, pre, digits, post, heq, h1, h2, h3⟩ := ih h
          exact ⟨n, c :: pre, digits, post,
            by rw [List.cons_append, heq], h1, h2, h3⟩
      · rw [if_neg hc] at h
        obtain ⟨n, pre, digits, post, heq, h1, h2, h3⟩ := ih h
        exact ⟨n, c :: pre, digits, post,
          by rw [List.cons_append, heq], h1, h2, h3⟩
  · rintro ⟨n, pre, digits, post, heq, h1, h2, h3⟩
    rw [heq]
    exact containsMarker_append_marker h1 h2 post pre

theorem foldl_dedup_mem :
    ∀ (l acc : List Nat) (a : Nat),
      (a ∈ l.foldl (fun acc n => if n ∈ acc then acc else acc ++ [n]) acc ↔
        a ∈ acc ∨ a ∈ l) := by
  intro l
  induction l with
  | nil => intro acc a; simp
  | cons x xs ih =>
    intro acc a
    simp only [List.foldl_cons]
    by_cases hx : x ∈ acc
    · rw [if_pos hx, ih, List.mem_cons]
      constructor
      · rintro (h | h)
        · exact Or.inl h
        · exact Or.inr (Or.inr h)
      · rintro (h | h | h)
        · exact Or.inl h
        · rw [h]; exact Or.inl hx
        · exact Or.inr h
    · rw [if_neg hx, ih, List.mem_cons, List.mem_append, List.mem_singleton]
      tauto

theorem mem_dedupFirst {a : Nat} {l : List Nat} : a ∈ dedupFirst l ↔ a ∈ l := by
  have h := foldl_dedup_mem l [] a
  simpa [dedupFirst] using h

theorem foldl_dedup_nodup :
    ∀ (l acc : List Nat), acc.Nodup →
      (l.foldl (fun acc n => if n ∈ acc then acc else acc ++ [n]) acc).Nodup := by
  intro l
  induction l with
  | nil => intro acc h; simpa using h
  | cons x xs ih =>
    intro acc h
    simp only [List.foldl_cons]
    by_cases hx : x ∈ acc
    · rw [if_pos hx]
      exact ih acc h
    · rw [if_neg hx]
      apply ih
      simp [List.nodup_append, h, hx]

theorem foldl_dedup_keepFirsts :
    ∀ (l acc seen : List Nat), (∀ a, a ∈ seen ↔ a ∈ acc) →
      l.foldl (fun acc n => if n ∈ acc then acc else acc ++ [n]) acc =
        acc ++ keepFirsts seen l := by
  intro l
  induction l with
  | nil => intro acc seen _; simp [keepFirsts]
  | cons x xs ih =>
    intro acc seen hiff
    simp only [List.foldl_cons, keepFirsts]
    by_cases hx : x ∈ acc
    · rw [if_pos hx, if_pos ((hiff x).mpr hx)]
      exact ih acc seen hiff
    · rw [if_neg hx, if_neg (fun hseen => hx ((hiff x).mp hseen))]
      rw [ih (acc ++ [x]) (x :: seen) ?_]
      · simp [List.append_assoc]
      · intro a
        simp only [List.mem_cons, List.mem_append, List.mem_singleton, hiff a]
        tauto

theorem dedupFirst_eq_keepFirsts (l : List Nat) :
    dedupFirst l = keepFirsts [] l := by
  have h := foldl_dedup_keepFirsts l [] [] (by simp)
  simpa [dedupFirst] using h

/-- Claim C3: citation extraction is a pure function of the answer text; on
the sample answer it yields exactly the pages 2 and 5 (the duplicate marker
for page 2 collapses), and on any answer containing no well-formed marker it
yields the empty list rather than an error. -/
theorem citation_extraction_pure :
    uniqueCitations "Revenue grew [p.2] and costs fell [p.5] and [p.2] again" =
      [2, 5] ∧
    ∀ s : String, (¬ ∃ n, MarkerFor s.data n) → uniqueCitations s = [] := by
  constructor
  · decide
  · intro s hno
    have hscan : scanCitations s.data = [] := by
      cases hsc : scanCitations s.data with
      | nil => rfl
      | cons m ms =>
        exfalso
        apply hno
        have hm : m ∈ scanCitations s.data := by
          rw [hsc]
          exact List.mem_cons_self m ms
        exact ⟨m, scanAux_sound s.data.length s.data (Nat.le_refl _) m hm⟩
    simp [uniqueCitations, citationMatches, hscan, dedupFirst]

theorem citation_extraction_pure_witness :
    uniqueCitations "The answer is not in the document." = [] :=
  citation_extraction_pure.2 "The answer is not in the document."
    (fun hex => absurd ((containsMarker_iff _).mpr hex) (by decide))

/-- Claim C4: citation extraction performs no validation against the pages of
the extraction result: whenever the answer contains a well-formed marker for
page n, the number n is among the returned citations, even when no page of
the given page sequence carries the number n. -/
theorem citation_no_validation (answer : String) (pages : List PageText)
    (n : Nat) (hmark : MarkerFor answer.data n)
    (_hnot : ∀ p ∈ pages, p.page ≠ n) :
    n ∈ uniqueCitations answer := by
  obtain ⟨pre, digits, post, heq, h1, h2, h3⟩ := hmark
  have hscan : n ∈ scanCitations answer.data := by
    rw [heq, ← h3]
    exact scanAux_complete _ pre digits post (Nat.le_refl _) h1 h2
  exact mem_dedupFirst.mpr hscan

theorem citation_no_validation_witness :
    9 ∈ uniqueCitations "see [p.9] maybe" :=
  citation_no_validation "see [p.9] maybe" [⟨1, "alpha"⟩, ⟨2, "beta"⟩] 9
    ⟨"see ".data, ['9'], " maybe".data, by decide, by decide, by decide, by decide⟩
    (by decide)

/-- Claim C8, counterexample: the code accepts the marker for page 0, so the
returned citation 0 is not a positive integer. -/
theorem citation_positive_counterexample :
    ¬ (∀ n ∈ uniqueCitations "intro [p.0] outro", 0 < n) := by decide

/-- Claim C8, amended: every citation value returned to the client is a
natural number parsed from a well-formed in-text marker (zero is possible,
since the digit run of a marker may parse to 0), and the returned collection
contains no duplicates. -/
theorem citations_from_markers_nodup (answer : String) :
    (∀ n ∈ uniqueCitations answer, MarkerFor answer.data n) ∧
    (uniqueCitations answer).Nodup := by
  constructor
  · intro n hn
    exact scanAux_sound answer.data.length answer.data (Nat.le_refl _) n
      (mem_dedupFirst.mp hn)
  · exact foldl_dedup_nodup (citationMatches answer) [] List.nodup_nil

theorem citations_from_markers_nodup_witness :
    MarkerFor "go [p.12] now".data 12 :=
  (citations_from_markers_nodup "go [p.12] now").1 12 (by decide)

/-- Claim C10: the citation list the ask handler returns lists each cited page
number exactly once, in the order of the first appearance of its marker in
the answer text: the deduplication of the match list keeps first occurrences
in order, and the result has no duplicates. -/
theorem citations_first_occurrence_order (answer : String) :
    uniqueCitations answer = keepFirsts [] (citationMatches answer) ∧
    (uniqueCitations answer).Nodup :=
  ⟨dedupFirst_eq_keepFirsts (citationMatches answer),
   foldl_dedup_nodup (citationMatches answer) [] List.nodup_nil⟩

/-- Claim C7: summarize sends the backend exactly the prefix made of the
first MAX_SUMMARY_CHARS (20000) characters of the extracted full text: the
prompt text equals the character-level take of 20000, it is a prefix of the
full text of length min(20000, full length) with no sentence-aware
adjustment, the payload reaching the backend is the fixed instruction
followed by exactly that prefix, and a 50000-character document contributes
exactly its first 20000 characters. -/
theorem summary_truncation :
    (∀ t : String, (promptTextFor t).data = t.data.take MAX_SUMMARY_CHARS ∧
      (∃ rest, t.data = (promptTextFor t).data ++ rest) ∧
      (promptTextFor t).length = min MAX_SUMMARY_CHARS t.length) ∧
    (∀ (env : Env) (id : String) (f : FileRecord),
      lookupFile env id = some f → env.aiProvider ≠ "ollama" →
      env.apiKey ≠ none →
      (summarizeOp env id).1 = Except.ok
        ⟨jsTrim (env.backendReply (summaryUserMessage
          (promptTextFor (extractPdfText f.parsed f.ocrText).text))),
         (extractPdfText f.parsed f.ocrText).method⟩) ∧
    (∀ t : String, t.length = 50000 →
      (promptTextFor t).length = MAX_SUMMARY_CHARS) := by
  refine ⟨?_, ?_, ?_⟩
  · intro t
    refine ⟨rfl, ⟨t.data.drop MAX_SUMMARY_CHARS, (List.take_append_drop _ _).symm⟩, ?_⟩
    show (t.data.take MAX_SUMMARY_CHARS).length = min MAX_SUMMARY_CHARS t.data.length
    rw [List.length_take]
  · intro env id f hf hprov hkey
    cases hk : env.apiKey with
    | none => exact absurd hk hkey
    | some key =>
      simp [summarizeOp, hf, generateSummaryE, hprov, hk]
  · intro t ht
    have hd : t.data.length = 50000 := ht
    show (t.data.take MAX_SUMMARY_CHARS).length = MAX_SUMMARY_CHARS
    rw [List.length_take, hd]
    simp [MAX_SUMMARY_CHARS]

theorem summary_truncation_witness :
    (summarizeOp envWithKey "f1").1 = Except.ok
      ⟨jsTrim (envWithKey.backendReply (summaryUserMessage
        (promptTextFor (extractPdfText fileRec1.parsed fileRec1.ocrText).text))),
       (extractPdfText fileRec1.parsed fileRec1.ocrText).method⟩ ∧
    (promptTextFor ⟨List.replicate 50000 'a'⟩).length = MAX_SUMMARY_CHARS :=
  ⟨summary_truncation.2.1 envWithKey "f1" fileRec1 (by decide) (by decide)
      (by decide),
   summary_truncation.2.2 ⟨List.replicate 50000 'a'⟩
      (List.length_replicate 50000 'a')⟩

/-- Claim C9: an unknown file identifier makes each of the three operations
fail with the not-found error without any backend invocation, and, with the
openai provider selected, a missing OPENAI_API_KEY makes summarize and ask
fail with the service-unavailable error, again without any backend
invocation. -/
theorem error_mapping_ops :
    (∀ (env : Env) (id : String), lookupFile env id = none →
      extractOp env id = Except.error AppError.notFound ∧
      summarizeOp env id = (Except.error AppError.notFound, 0) ∧
      ∀ q, askOp env id q = (Except.error AppError.notFound, 0)) ∧
    (∀ (env : Env) (id : String) (f : FileRecord),
      env.aiProvider ≠ "ollama" → env.apiKey = none →
      lookupFile env id = some f →
      summarizeOp env id = (Except.error AppError.backendUnavailable, 0) ∧
      ∀ q, askOp env id q = (Except.error AppError.backendUnavailable, 0)) := by
  constructor
  · intro env id h
    refine ⟨?_, ?_, fun q => ?_⟩
    · simp [extractOp, h]
    · simp [summarizeOp, h]
    · simp [askOp, h]
  · intro env id f hprov hkey hf
    constructor
    · simp [summarizeOp, hf, generateSummaryE, hprov, hkey]
    · intro q
      simp [askOp, hf, answerQuestionE, hprov, hkey]

theorem error_mapping_ops_witness :
    extractOp envNoKey "missing" = Except.error AppError.notFound ∧
    summarizeOp envNoKey "f1" = (Except.error AppError.backendUnavailable, 0) ∧
    askOp envNoKey "f1" "why" = (Except.error AppError.backendUnavailable, 0) :=
  ⟨(error_mapping_ops.1 envNoKey "missing" (by decide)).1,
   (error_mapping_ops.2 envNoKey "f1" fileRec1 (by decide) (by decide)
      (by decide)).1,
   (error_mapping_ops.2 envNoKey "f1" fileRec1 (by decide) (by decide)
      (by decide)).2 "why"⟩
theorem citations_first_occurrence_order_witness :
    uniqueCitations "a [p.3] b [p.1] c [p.3] d [p.2]" =
      keepFirsts [] (citationMatches "a [p.3] b [p.1] c [p.3] d [p.2]") :=
  (citations_first_occurrence_order "a [p.3] b [p.1] c [p.3] d [p.2]").1
